import Mathlib

/-!
Verification of the supergrep federated code-search engine.

This file gives a shallow embedding of the core of the repository:

* `src/core/types.ts` — the data model (`SearchQuery`, `SearchResult`,
  `ProviderError`, `SearchResponse`), `normalizeQuery` and `isProviderError`;
* `src/core/engine.ts` — `SearchEngine.search`, `hashQuery` and `aggregate`;
* `src/cache/sqlite.ts` — the cache rows together with `get` and `set`;
* `src/core/metrics.ts` — the metric rows, `record` and `percentile`.

Modelling conventions.  JavaScript objects carry their keys in insertion
order, and both `Object.entries` and `JSON.stringify` observe that order;
the `filters` record is therefore modelled as an insertion-ordered
association list whose values may be explicitly `undefined`
(`Option FilterPrim` with `none` for `undefined`).  Machine numbers used
as integers are modelled as `Nat`/`Int`; the floating point relevance
scores are modelled as exact rationals and `Math.log` as `Real.log`.
Promises are modelled by explicit state passing: `Date.now` is an
explicit stream of timestamps, the sqlite tables are in-memory lists of
rows, and a rejected provider promise is an `Except.error` carrying its
rejection reason.  `createHash('sha256')...digest('hex')` is modelled by
a full executable SHA-256 over the UTF-8 bytes of the serialized query.
-/

set_option maxRecDepth 100000

/-! ### Data model (src/core/types.ts) -/

/-- `export type ProviderName = 'github' | 'sourcegraph'`. -/
inductive ProviderName where
  | github
  | sourcegraph
deriving DecidableEq, Repr

/-- The runtime string of a provider name (JS providers are plain strings). -/
def ProviderName.str : ProviderName → String
  | .github => "github"
  | .sourcegraph => "sourcegraph"

/-- A primitive filter value: the `SearchFilters` fields are optional
strings or booleans (`language`, `repo`, `org`, `path`, `filename`,
`extension` are strings; `regex` is a boolean). -/
inductive FilterPrim where
  | fstr (s : String)
  | fbool (b : Bool)
deriving DecidableEq, Repr

/-- `SearchFilters` as a runtime JS object: an insertion-ordered list of
key/value pairs, where a value of `none` models a key that is present
but explicitly set to `undefined`. -/
abbrev SearchFilters := List (String × Option FilterPrim)

/-- `SearchQuery` from src/core/types.ts.  The fixed field order
`q, providers, filters, limit, cacheTTL` is the insertion order used by
the repository's callers when building query literals. -/
structure SearchQuery where
  q : String
  providers : List ProviderName
  filters : SearchFilters
  limit : Nat
  cacheTTL : Option Nat
deriving DecidableEq, Repr

/-- `SearchResult` from src/core/types.ts; `score` is the float
relevance score (modelled as an exact rational). -/
structure SearchResult where
  url : String
  rawUrl : String
  repo : String
  path : String
  lines : Nat × Nat
  snippet : String
  language : String
  stars : Nat
  provider : ProviderName
  score : ℚ
deriving DecidableEq, Repr

/-- The `code` field of a `ProviderError`. -/
inductive ErrorCode where
  | RATE_LIMIT
  | AUTH
  | TIMEOUT
  | UNKNOWN
deriving DecidableEq, Repr

/-- `ProviderError` from src/core/types.ts. -/
structure ProviderError where
  provider : ProviderName
  message : String
  code : ErrorCode
deriving DecidableEq, Repr

/-- `SearchResponse` from src/core/types.ts.  The engine's cache-hit
path additionally attaches a `search_elapsed_ms` field to the object it
returns; responses built on the miss path (and hence the stored cached
values) carry `none` there. -/
structure SearchResponse where
  query : SearchQuery
  results : List SearchResult
  total : Nat
  cached : Bool
  elapsed_ms : Int
  errors : List ProviderError
  search_elapsed_ms : Option Int
deriving DecidableEq, Repr

/-- Lexicographic comparison of character sequences by code point — for
the ASCII provider identifiers this coincides with the UTF-16 code-unit
comparison JS string ordering performs. -/
def charListLe : List Char → List Char → Bool
  | [], _ => true
  | _ :: _, [] => false
  | c :: cs, d :: ds =>
    if c.toNat < d.toNat then true
    else if d.toNat < c.toNat then false
    else charListLe cs ds

/-- Lexicographic string comparison on the underlying characters. -/
def strLeB (a b : String) : Bool :=
  charListLe a.data b.data

/-- JS `Array.prototype.sort()` without a comparator sorts by string
conversion; on the providers array this is lexicographic order on the
provider identifier strings. -/
def provLE (a b : ProviderName) : Prop :=
  strLeB a.str b.str = true

instance : DecidableRel provLE := fun a b =>
  inferInstanceAs (Decidable (strLeB a.str b.str = true))

/-- `[...query.providers].sort()` from `normalizeQuery`. -/
def sortProviders (l : List ProviderName) : List ProviderName :=
  l.insertionSort provLE

/-- `normalizeQuery` from src/core/types.ts: copy the filters keeping
only entries whose value is not `undefined` (in their original insertion
order), and sort the providers; all other fields are spread through. -/
def normalizeQuery (query : SearchQuery) : SearchQuery :=
  { query with
    providers := sortProviders query.providers
    filters := query.filters.filter (fun kv => kv.2.isSome) }

/-! ### JSON serialization (`JSON.stringify` on the query shape) -/

/-- Lower-case hex digit. -/
def hexChar (n : Nat) : Char :=
  if n < 10 then Char.ofNat (48 + n) else Char.ofNat (87 + n)

/-- `JSON.stringify` escaping of a single character. -/
def escChar (c : Char) : String :=
  if c = Char.ofNat 34 then "\\\""
  else if c = Char.ofNat 92 then "\\\\"
  else if c = Char.ofNat 8 then "\\b"
  else if c = Char.ofNat 9 then "\\t"
  else if c = Char.ofNat 10 then "\\n"
  else if c = Char.ofNat 12 then "\\f"
  else if c = Char.ofNat 13 then "\\r"
  else if c.toNat < 32 then
    "\\u00" ++ String.mk [hexChar (c.toNat / 16), hexChar (c.toNat % 16)]
  else String.mk [c]

/-- The body of a JSON string literal. -/
def jsonEscape (s : String) : String :=
  String.join (s.data.map escChar)

/-- A JSON string literal. -/
def jstr (s : String) : String :=
  "\"" ++ jsonEscape s ++ "\""

/-- Serialization of one filter value. -/
def stringifyPrim : FilterPrim → String
  | .fstr s => jstr s
  | .fbool b => if b then "true" else "false"

/-- `JSON.stringify` of the filters object.  Note that `JSON.stringify`
itself drops object members whose value is `undefined`, and emits the
remaining members in insertion order. -/
def stringifyFilters (fs : SearchFilters) : String :=
  "\x7b" ++
    String.intercalate ","
      (fs.filterMap (fun kv => kv.2.map (fun v => jstr kv.1 ++ ":" ++ stringifyPrim v))) ++
  "\x7d"

/-- `JSON.stringify` of the providers array. -/
def stringifyProviders (ps : List ProviderName) : String :=
  "[" ++ String.intercalate "," (ps.map (fun p => jstr p.str)) ++ "]"

/-- `JSON.stringify(query)` for a `SearchQuery`-shaped object whose keys
were inserted in the order `q, providers, filters, limit, cacheTTL`; a
`cacheTTL` that is absent (or `undefined`) is dropped by `stringify`. -/
def stringifyQuery (query : SearchQuery) : String :=
  "\x7b\"q\":" ++ jstr query.q ++
  ",\"providers\":" ++ stringifyProviders query.providers ++
  ",\"filters\":" ++ stringifyFilters query.filters ++
  ",\"limit\":" ++ toString query.limit ++
  (match query.cacheTTL with
   | some n => ",\"cacheTTL\":" ++ toString n
   | none => "") ++
  "\x7d"

/-! ### SHA-256 (`createHash('sha256')` over the UTF-8 bytes) -/

/-- UTF-8 encoding of one character, as byte values. -/
def utf8Bytes (c : Char) : List Nat :=
  let n := c.toNat
  if n < 128 then [n]
  else if n < 2048 then [192 + n / 64, 128 + n % 64]
  else if n < 65536 then [224 + n / 4096, 128 + (n / 64) % 64, 128 + n % 64]
  else [240 + n / 262144, 128 + (n / 4096) % 64, 128 + (n / 64) % 64, 128 + n % 64]

/-- UTF-8 bytes of a string. -/
def strBytes (s : String) : List Nat :=
  (s.data.map utf8Bytes).flatten

/-- Addition of 32-bit words. -/
def wadd2 (a b : Nat) : Nat :=
  (a + b) % 4294967296

/-- Bitwise complement of a 32-bit word. -/
def wnot (a : Nat) : Nat :=
  4294967295 - a

/-- Right rotation of a 32-bit word. -/
def rotr (n a : Nat) : Nat :=
  ((a >>> n) ||| (a <<< (32 - n))) % 4294967296

def bigSigma0 (x : Nat) : Nat :=
  (rotr 2 x) ^^^ (rotr 13 x) ^^^ (rotr 22 x)

def bigSigma1 (x : Nat) : Nat :=
  (rotr 6 x) ^^^ (rotr 11 x) ^^^ (rotr 25 x)

def smallSigma0 (x : Nat) : Nat :=
  (rotr 7 x) ^^^ (rotr 18 x) ^^^ (x >>> 3)

def smallSigma1 (x : Nat) : Nat :=
  (rotr 17 x) ^^^ (rotr 19 x) ^^^ (x >>> 10)

def chGate (x y z : Nat) : Nat :=
  (x &&& y) ^^^ ((wnot x) &&& z)

def majGate (x y z : Nat) : Nat :=
  (x &&& y) ^^^ (x &&& z) ^^^ (y &&& z)

/-- The SHA-256 round constants (in decimal). -/
def sha256K : List Nat :=
  [1116352408, 1899447441, 3049323471, 3921009573, 961987163, 1508970993,
   2453635748, 2870763221, 3624381080, 310598401, 607225278, 1426881987,
   1925078388, 2162078206, 2614888103, 3248222580, 3835390401, 4022224774,
   264347078, 604807628, 770255983, 1249150122, 1555081692, 1996064986,
   2554220882, 2821834349, 2952996808, 3210313671, 3336571891, 3584528711,
   113926993, 338241895, 666307205, 773529912, 1294757372, 1396182291,
   1695183700, 1986661051, 2177026350, 2456956037, 2730485921, 2820302411,
   3259730800, 3345764771, 3516065817, 3600352804, 4094571909, 275423344,
   430227734, 506948616, 659060556, 883997877, 958139571, 1322822218,
   1537002063, 1747873779, 1955562222, 2024104815, 2227730452, 2361852424,
   2428436474, 2756734187, 3204031479, 3329325298]

/-- The SHA-256 initial hash value (in decimal). -/
def sha256Init : List Nat :=
  [1779033703, 3144134277, 1013904242, 2773480762,
   1359893119, 2600822924, 528734635, 1541459225]

/-- SHA-256 padding: append `0x80`, zero bytes to 56 mod 64, then the
message bit length as 8 big-endian bytes. -/
def sha256Pad (msg : List Nat) : List Nat :=
  let len := msg.length
  let zeros := (119 - len % 64) % 64
  msg ++ [128] ++ List.replicate zeros 0 ++
    (List.range 8).map (fun i => ((len * 8) >>> (8 * (7 - i))) % 256)

/-- A big-endian 32-bit word from four bytes. -/
def bytesToWord (bs : List Nat) : Nat :=
  bs.foldl (fun acc b => acc * 256 + b) 0

/-- Split a padded message into 16-word blocks. -/
def toBlocks (padded : List Nat) : List (List Nat) :=
  (List.range (padded.length / 64)).map (fun i =>
    (List.range 16).map (fun j => bytesToWord (((padded.drop (64 * i + 4 * j)).take 4))))

/-- Extend a 16-word block to the 64-word message schedule. -/
def extendSchedule (w16 : List Nat) : List Nat :=
  (List.range 48).foldl (fun w _ =>
    let n := w.length
    w ++ [wadd2 (wadd2 (smallSigma1 (w.getD (n - 2) 0)) (w.getD (n - 7) 0))
               (wadd2 (smallSigma0 (w.getD (n - 15) 0)) (w.getD (n - 16) 0))]) w16

/-- The eight working variables of the compression loop. -/
structure Hash8 where
  a : Nat
  b : Nat
  c : Nat
  d : Nat
  e : Nat
  f : Nat
  g : Nat
  hh : Nat

/-- One round of the SHA-256 compression function. -/
def sha256Step (st : Hash8) (kw : Nat × Nat) : Hash8 :=
  let t1 := wadd2 st.hh (wadd2 (bigSigma1 st.e) (wadd2 (chGate st.e st.f st.g) (wadd2 kw.1 kw.2)))
  let t2 := wadd2 (bigSigma0 st.a) (majGate st.a st.b st.c)
  ⟨wadd2 t1 t2, st.a, st.b, st.c, wadd2 st.d t1, st.e, st.f, st.g⟩

/-- Process one block. -/
def sha256Block (hv : List Nat) (block : List Nat) : List Nat :=
  let w := extendSchedule block
  let st0 : Hash8 :=
    ⟨hv.getD 0 0, hv.getD 1 0, hv.getD 2 0, hv.getD 3 0,
     hv.getD 4 0, hv.getD 5 0, hv.getD 6 0, hv.getD 7 0⟩
  let st := (sha256K.zip w).foldl sha256Step st0
  [wadd2 st0.a st.a, wadd2 st0.b st.b, wadd2 st0.c st.c, wadd2 st0.d st.d,
   wadd2 st0.e st.e, wadd2 st0.f st.f, wadd2 st0.g st.g, wadd2 st0.hh st.hh]

/-- SHA-256 of a byte sequence, as eight 32-bit words. -/
def sha256Words (msg : List Nat) : List Nat :=
  (toBlocks (sha256Pad msg)).foldl sha256Block sha256Init

/-- Hex rendering of one 32-bit word. -/
def wordToHex (w : Nat) : String :=
  String.mk ((List.range 8).map (fun i => hexChar ((w >>> (28 - 4 * i)) &&& 15)))

/-- `createHash('sha256').update(s).digest('hex')`. -/
def sha256Hex (msg : List Nat) : String :=
  String.join ((sha256Words msg).map wordToHex)

/-- `hashQuery` from src/core/engine.ts:
`createHash('sha256').update(JSON.stringify(query)).digest('hex')`. -/
def hashQuery (query : SearchQuery) : String :=
  sha256Hex (strBytes (stringifyQuery query))

/-! ### Result aggregation (`aggregate` in src/core/engine.ts) -/

/-- The deduplication loop of `aggregate`: a `filter` over the input
that keeps a result exactly when its `url` has not been seen before,
threading the `seen` set of urls. -/
def dedupGo (seen : List String) : List SearchResult → List SearchResult
  | [] => []
  | r :: rs =>
    if r.url ∈ seen then dedupGo seen rs
    else r :: dedupGo (r.url :: seen) rs

/-- Deduplication by `url` starting from an empty `seen` set. -/
def dedupByUrl (results : List SearchResult) : List SearchResult :=
  dedupGo [] results

/-- The rank score `r.score * Math.log(r.stars + 1)` attached by
`aggregate` (the `_rank` field), with `Math.log` modelled as the real
natural logarithm. -/
noncomputable def rank (r : SearchResult) : ℝ :=
  (r.score : ℝ) * Real.log ((r.stars : ℝ) + 1)

/-- The ordering used by `.sort((a, b) => b._rank - a._rank)`: `a` may
come before `b` exactly when `a`'s rank is at least `b`'s. -/
def rankGE (a b : SearchResult) : Prop :=
  rank b ≤ rank a

noncomputable instance : DecidableRel rankGE :=
  Classical.decRel _

/-- The stable descending sort by `_rank` performed by `aggregate`
(V8's `Array.prototype.sort` is stable, so attaching `_rank`, sorting by
the comparator `b._rank - a._rank` and stripping `_rank` again is the
stable sort of the deduplicated list by descending rank). -/
noncomputable def rankSort (l : List SearchResult) : List SearchResult :=
  l.insertionSort rankGE

/-- `aggregate` from src/core/engine.ts: deduplicate by `url`, re-rank
by descending `score * log(stars + 1)` with a stable sort, and truncate
to `limit` entries. -/
noncomputable def aggregate (results : List SearchResult) (limit : Nat) : List SearchResult :=
  (rankSort (dedupByUrl results)).take limit

/-! ### Cache store (src/cache/sqlite.ts) -/

/-- One row of the sqlite `cache` table.  `value` holds the serialized
response (`JSON.stringify` on `set`, `JSON.parse` on `get`); the
round-trip through the serialization is the identity here, so the row
stores the response itself.  Timestamps are epoch seconds. -/
structure CacheRow where
  key : String
  value : SearchResponse
  created_at : Int
  expires_at : Int

/-- `SqliteCacheRepository.get`:
`SELECT value FROM cache WHERE key = ? AND expires_at > ?` with `?` the
current epoch seconds; the `key` column is a primary key, so at most one
row matches. -/
def cacheGet (rows : List CacheRow) (now : Int) (key : String) : Option SearchResponse :=
  (rows.find? (fun r => decide (r.key = key ∧ now < r.expires_at))).map (fun r => r.value)

/-- `SqliteCacheRepository.set`: `INSERT OR REPLACE` keyed on the
primary key — any existing row for `key` is replaced by the fresh row
with `created_at = now` and `expires_at = now + ttlSec`. -/
def cacheSet (rows : List CacheRow) (now : Int) (key : String) (value : SearchResponse)
    (ttlSec : Int) : List CacheRow :=
  rows.filter (fun r => decide (r.key ≠ key)) ++ [⟨key, value, now, now + ttlSec⟩]

/-! ### Metrics sink (src/core/metrics.ts) -/

/-- One row of the append-only sqlite `metrics` table; `ts` is epoch
seconds, the nullable columns are options. -/
structure MetricRow where
  ts : Int
  provider : ProviderName
  query : Option String
  cache_hit : Bool
  results : Option Nat
  elapsed_ms : Option Int
  error : Option String

/-- `percentile` from src/core/metrics.ts:
index `Math.ceil(sorted.length * p) - 1` clamped by
`Math.max(0, Math.min(idx, sorted.length - 1))`, with `?? 0` as the
out-of-bounds fallback and `0` for an empty sample list. -/
def percentile (sorted : List Int) (p : ℚ) : Int :=
  if sorted.length = 0 then 0
  else
    sorted.getD
      (Int.toNat (max 0 (min (Int.ceil ((sorted.length : ℚ) * p) - 1)
        ((sorted.length : Int) - 1)))) 0

/-- Modelled from the spec (§4.5): nearest-rank percentile estimation —
"sort all recorded elapsed-time samples ascending; index =
`ceil(count × p) − 1`, clamped to `[0, count−1]`; empty sample set
yields 0".  The clamped index is proved in bounds, so the element is
selected by a total lookup. -/
def nearestRank (samples : List Int) (p : ℚ) : Int :=
  if h : samples = [] then 0
  else
    samples.get ⟨min (Int.toNat (Int.ceil ((samples.length : ℚ) * p) - 1)) (samples.length - 1), by
      have hl : samples.length ≠ 0 := fun hl => h (List.eq_nil_of_length_eq_zero hl)
      omega⟩

/-! ### The aggregation engine (src/core/engine.ts) -/

/-- The reason a provider promise rejected with, as seen by the
`Promise.allSettled` handler: either an object carrying the
`provider`/`message`/`code` fields of a `ProviderError`, or any other
thrown value, kept abstract as its `String(err)` rendering. -/
inductive RejectionReason where
  | providerError (e : ProviderError)
  | other (s : String)
deriving DecidableEq, Repr

/-- `isProviderError` from src/core/types.ts: true exactly when the
rejection reason is an object with `provider`, `message` and `code`
fields. -/
def isProviderError : RejectionReason → Bool
  | .providerError _ => true
  | .other _ => false

/-- The classification in step 4 of `SearchEngine.search`:
`isProviderError(err) ? (err as ProviderError)
: { provider: provider.name, message: String(err), code: 'UNKNOWN' }`. -/
def classifyReason (pname : ProviderName) : RejectionReason → ProviderError
  | .providerError e => e
  | .other s => { provider := pname, message := s, code := ErrorCode.UNKNOWN }

/-- A provider adapter as the engine sees it: a name and a `search`
returning either results (a fulfilled promise) or a rejection reason. -/
structure Provider where
  name : ProviderName
  search : SearchQuery → Except RejectionReason (List SearchResult)

/-- The engine state that is not threaded through `World`: the
configured provider map (`Partial<Record<ProviderName, Provider>>`) and
the injected default TTL. -/
structure SearchEngine where
  providers : ProviderName → Option Provider
  defaultTTL : Nat

/-- The mutable world a `search` call runs in: the upcoming `Date.now()`
values (milliseconds), the sqlite cache and metrics tables, and an
instrumentation trace of the provider adapters whose `search` has been
invoked. -/
structure World where
  time : List Int
  cacheRows : List CacheRow
  metricsRows : List MetricRow
  invoked : List ProviderName

/-- One `Date.now()` call: consume the next timestamp (0 once the
supplied stream is exhausted). -/
def World.tick (w : World) : Int × World :=
  match w.time with
  | [] => (0, w)
  | t :: ts => (t, { w with time := ts })

/-- `SqliteMetrics.record`: read `Date.now()`, floor to seconds, and
append one row to the metrics table. -/
def metricsRecord (provider : ProviderName) (query : Option String) (cacheHit : Bool)
    (results : Option Nat) (elapsedMs : Option Int) (error : Option String)
    (w : World) : World :=
  let p := w.tick
  { p.2 with metricsRows :=
      p.2.metricsRows ++ [⟨p.1 / 1000, provider, query, cacheHit, results, elapsedMs, error⟩] }

/-- Step 4 of `SearchEngine.search`: walk the settlements in provider
order; a fulfilled settlement appends its results and records a metrics
row with its result count and elapsed time; a rejected settlement is
classified into a `ProviderError`, appended to the errors, and recorded
as an error metrics row.  Each iteration reads `Date.now()` for its
elapsed time before recording. -/
def collectLoop (qtext : String) (t0 : Int) :
    List (Provider × Except RejectionReason (List SearchResult)) → World →
    List SearchResult × List ProviderError × World
  | [], w => ([], [], w)
  | (p, outcome) :: rest, w =>
    let pt := w.tick
    match outcome with
    | Except.ok v =>
      let w2 := metricsRecord p.name (some qtext) false (some v.length) (some (pt.1 - t0)) none pt.2
      let r := collectLoop qtext t0 rest w2
      (v ++ r.1, r.2.1, r.2.2)
    | Except.error reason =>
      let pe := classifyReason p.name reason
      let w2 := metricsRecord p.name (some qtext) false none none (some pe.message) pt.2
      let r := collectLoop qtext t0 rest w2
      (r.1, pe :: r.2.1, r.2.2)

/-- `SearchEngine.search` from src/core/engine.ts, as a total function
on the explicit world state (all infrastructure rejections are caught in
the source, so the model never fails):

1. normalize the query and derive the cache key, read `t0 = Date.now()`;
2. cache lookup (the sqlite `get` reads its own `Date.now()` floored to
   seconds); on a hit, record one cache-hit metrics row attributed to
   the first provider of the normalized list when one exists, and return
   the cached response with `cached := true`, this call's wall time, and
   the original response's elapsed time as `search_elapsed_ms`;
3. on a miss, resolve the active providers (unknown or unconfigured ids
   drop out), fan out (each active adapter is invoked once — appended to
   the `invoked` trace), collect settlements, aggregate, build the
   response, store it with TTL `query.cacheTTL ?? defaultTTL`, and
   return it. -/
noncomputable def SearchEngine.search (e : SearchEngine) (query : SearchQuery) (w0 : World) :
    SearchResponse × World :=
  let normalized := normalizeQuery query
  let key := hashQuery normalized
  let p1 := w0.tick
  let t0 := p1.1
  let p2 := p1.2.tick
  let w2 := p2.2
  match cacheGet w2.cacheRows (p2.1 / 1000) key with
  | some cached =>
    let w3 :=
      match normalized.providers.head? with
      | some fp =>
        metricsRecord fp (some normalized.q) true (some cached.results.length) (some 0) none w2
      | none => w2
    let p4 := w3.tick
    ({ cached with
        cached := true
        elapsed_ms := p4.1 - t0
        search_elapsed_ms := some cached.elapsed_ms }, p4.2)
  | none =>
    let activeProviders := normalized.providers.filterMap e.providers
    let settlements := activeProviders.map (fun p => (p, p.search normalized))
    let w3 := { w2 with invoked := w2.invoked ++ activeProviders.map (fun p => p.name) }
    let c := collectLoop normalized.q t0 settlements w3
    let merged := aggregate c.1 normalized.limit
    let p5 := c.2.2.tick
    let response : SearchResponse :=
      ⟨normalized, merged, merged.length, false, p5.1 - t0, c.2.1, none⟩
    let p6 := p5.2.tick
    let newRows :=
      cacheSet p6.2.cacheRows (p6.1 / 1000) key response
        ((query.cacheTTL.getD e.defaultTTL : Nat) : Int)
    (response, { p6.2 with cacheRows := newRows })

/-! ### Concrete sample data -/

/-- A minimal response value, used to exercise the cache store. -/
def sampleResponse : SearchResponse :=
  ⟨⟨"", [], [], 0, none⟩, [], 0, false, 0, [], none⟩

/-- A query whose filters carry an explicitly-undefined `org` field and
whose providers are listed out of sorted order. -/
def qv1 : SearchQuery :=
  ⟨"rust stream", [.sourcegraph, .github],
   [("language", some (.fstr "rs")), ("org", none)], 5, none⟩

/-- The same query as `qv1` with sorted providers and the undefined
`org` field omitted entirely. -/
def qv2 : SearchQuery :=
  ⟨"rust stream", [.github, .sourcegraph],
   [("language", some (.fstr "rs"))], 5, none⟩

/-- A query whose filter keys were inserted `language` first. -/
def qo1 : SearchQuery :=
  ⟨"foo", [.github],
   [("language", some (.fstr "ts")), ("repo", some (.fstr "a/b"))], 10, none⟩

/-- The same query as `qo1` with its filter keys inserted in the
opposite order (`repo` first). -/
def qo2 : SearchQuery :=
  ⟨"foo", [.github],
   [("repo", some (.fstr "a/b")), ("language", some (.fstr "ts"))], 10, none⟩

/-- A github result; used as the first occurrence of a duplicated url. -/
def rDup1 : SearchResult :=
  ⟨"https://github.com/a/b/shared", "https://raw/a", "a/b", "x.ts", (1, 3),
   "fst", "ts", 100, .github, 9/10⟩

/-- A sourcegraph result with the same url as `rDup1` but a different
provider, score and star count. -/
def rDup2 : SearchResult :=
  ⟨"https://github.com/a/b/shared", "https://raw/b", "a/c", "y.ts", (2, 4),
   "snd", "ts", 5000, .sourcegraph, 1/2⟩

/-- A result with a url of its own. -/
def rSolo : SearchResult :=
  ⟨"https://github.com/a/b/solo", "https://raw/c", "a/d", "z.ts", (5, 7),
   "solo", "ts", 10, .github, 9/10⟩

/-- Result A of the spec re-rank scenario: score 0.9, 10 stars. -/
def resultA : SearchResult :=
  ⟨"https://github.com/low", "https://raw/low", "a/low", "l.ts", (1, 3),
   "low", "ts", 10, .github, 9/10⟩

/-- Result B of the spec re-rank scenario: score 0.5, 10000 stars. -/
def resultB : SearchResult :=
  ⟨"https://github.com/high", "https://raw/high", "a/high", "h.ts", (1, 3),
   "high", "ts", 10000, .github, 1/2⟩

/-- A provider adapter that fulfils with the single result `rSolo`. -/
def pOkGithub : Provider :=
  ⟨.github, fun _ => Except.ok [rSolo]⟩

/-- A provider adapter that rejects with a `ProviderError`-shaped reason
of kind TIMEOUT. -/
def pBadSourcegraph : Provider :=
  ⟨.sourcegraph, fun _ => Except.error
    (RejectionReason.providerError ⟨.sourcegraph, "timeout", .TIMEOUT⟩)⟩

/-- An engine with both providers configured. -/
def engineBoth : SearchEngine :=
  ⟨fun n => match n with
    | .github => some pOkGithub
    | .sourcegraph => some pBadSourcegraph, 60⟩

/-- A query addressed to both providers. -/
def qBoth : SearchQuery :=
  ⟨"foo", [.github, .sourcegraph], [], 10, none⟩

/-- An engine with only the github provider configured. -/
def engineOne : SearchEngine :=
  ⟨fun n => match n with
    | .github => some pOkGithub
    | .sourcegraph => none, 100⟩

/-- A query addressed to the github provider only. -/
def qOne : SearchQuery :=
  ⟨"bar", [.github], [], 5, none⟩

/-- A query addressed to no provider at all. -/
def qNone : SearchQuery :=
  ⟨"baz", [], [], 5, none⟩

/-- A one-row cache table holding `sampleResponse` for `qNone`,
expiring at epoch second 100. -/
def rowsHit : List CacheRow :=
  [⟨hashQuery (normalizeQuery qNone), sampleResponse, 0, 100⟩]

/-- The world of the second call of the round-trip scenario: the tables
produced by a first `search` of `qOne` on an empty cache, with a fresh
clock for the second call. -/
noncomputable def roundWorld : World :=
  ⟨[11, 12, 13, 14], (engineOne.search qOne ⟨[], [], [], []⟩).2.cacheRows,
   (engineOne.search qOne ⟨[], [], [], []⟩).2.metricsRows,
   (engineOne.search qOne ⟨[], [], [], []⟩).2.invoked⟩

/-! ### Order instances for the two sort relations -/

instance : IsTotal ProviderName provLE := by
  constructor
  intro a b
  cases a <;> cases b <;> decide

instance : IsTrans ProviderName provLE := by
  constructor
  intro a b c h1 h2
  revert h1 h2
  cases a <;> cases b <;> cases c <;> decide

instance : IsAntisymm ProviderName provLE := by
  constructor
  intro a b h1 h2
  revert h1 h2
  cases a <;> cases b <;> decide

instance : IsTotal SearchResult rankGE :=
  ⟨fun a b => le_total (rank b) (rank a)⟩

instance : IsTrans SearchResult rankGE :=
  ⟨fun _ _ _ h1 h2 => le_trans h2 h1⟩

/-! ### Small world-state lemmas -/

theorem tick_cacheRows (w : World) : (w.tick).2.cacheRows = w.cacheRows := by
  obtain ⟨t, c, m, i⟩ := w
  cases t <;> rfl

theorem tick_metricsRows (w : World) : (w.tick).2.metricsRows = w.metricsRows := by
  obtain ⟨t, c, m, i⟩ := w
  cases t <;> rfl

theorem tick_invoked (w : World) : (w.tick).2.invoked = w.invoked := by
  obtain ⟨t, c, m, i⟩ := w
  cases t <;> rfl

theorem metricsRecord_cacheRows (p : ProviderName) (q : Option String) (ch : Bool)
    (rs : Option Nat) (el : Option Int) (er : Option String) (w : World) :
    (metricsRecord p q ch rs el er w).cacheRows = w.cacheRows := by
  simp [metricsRecord, tick_cacheRows]

theorem metricsRecord_invoked (p : ProviderName) (q : Option String) (ch : Bool)
    (rs : Option Nat) (el : Option Int) (er : Option String) (w : World) :
    (metricsRecord p q ch rs el er w).invoked = w.invoked := by
  simp [metricsRecord, tick_invoked]

theorem collectLoop_cacheRows (qt : String) (t0 : Int)
    (l : List (Provider × Except RejectionReason (List SearchResult))) (w : World) :
    (collectLoop qt t0 l w).2.2.cacheRows = w.cacheRows := by
  induction l generalizing w with
  | nil => rfl
  | cons hd rest ih =>
    obtain ⟨p, o⟩ := hd
    cases o <;> simp [collectLoop, ih, metricsRecord_cacheRows, tick_cacheRows]

theorem collectLoop_invoked (qt : String) (t0 : Int)
    (l : List (Provider × Except RejectionReason (List SearchResult))) (w : World) :
    (collectLoop qt t0 l w).2.2.invoked = w.invoked := by
  induction l generalizing w with
  | nil => rfl
  | cons hd rest ih =>
    obtain ⟨p, o⟩ := hd
    cases o <;> simp [collectLoop, ih, metricsRecord_invoked, tick_invoked]

/-! ### Cache store lemmas -/

theorem cacheGet_nil (now : Int) (key : String) : cacheGet [] now key = none := rfl

theorem find?_append_none {α : Type} (p : α → Bool) (l1 l2 : List α)
    (h : l1.find? p = none) : (l1 ++ l2).find? p = l2.find? p := by
  induction l1 with
  | nil => rfl
  | cons a l ih =>
    rw [List.cons_append]
    cases hp : p a with
    | true =>
      rw [List.find?_cons_of_pos _ hp] at h
      exact absurd h (by simp)
    | false =>
      rw [List.find?_cons_of_neg _ (by simp [hp])] at h
      rw [List.find?_cons_of_neg _ (by simp [hp])]
      exact ih h

theorem find?_filter_ne_key (rows : List CacheRow) (key : String) (pr : CacheRow → Bool)
    (hpr : ∀ r, r.key ≠ key → pr r = false) :
    (rows.filter (fun r => decide (r.key ≠ key))).find? pr = none := by
  induction rows with
  | nil => rfl
  | cons r rest ih =>
    by_cases hk : r.key = key
    · rw [List.filter_cons_of_neg (by simp [hk])]
      exact ih
    · rw [List.filter_cons_of_pos (by simp [hk])]
      rw [List.find?_cons_of_neg _ (by simp [hpr r hk])]
      exact ih

/-- C8: for every key, `set(key, response, ttlSec)` with `ttlSec ≤ 0`
produces an already-expired entry, so a subsequent `get(key)` (at any
later time) returns absent; in general `get` after `set` returns the
fresh value exactly when its `expires_at = now + ttl` is strictly in the
future at lookup time (so `set` upserts and the last write for a key
wins, whatever rows were there before), and `get` returns absent
whenever every row for the key has `expires_at` not strictly in the
future. -/
theorem cacheSet_get_expiry (rows : List CacheRow) (now now2 : Int) (key : String)
    (v : SearchResponse) (ttl : Int) :
    cacheGet (cacheSet rows now key v ttl) now2 key
      = (if now2 < now + ttl then some v else none)
    ∧ (ttl ≤ 0 → now ≤ now2 → cacheGet (cacheSet rows now key v ttl) now2 key = none)
    ∧ ((∀ r ∈ rows, r.key = key → r.expires_at ≤ now2) → cacheGet rows now2 key = none) := by
  have hmain : cacheGet (cacheSet rows now key v ttl) now2 key
      = (if now2 < now + ttl then some v else none) := by
    unfold cacheGet cacheSet
    rw [find?_append_none _ _ _ (find?_filter_ne_key rows key _ (by intro r hr; simp [hr]))]
    by_cases h : now2 < now + ttl
    · rw [List.find?_cons_of_pos _ (by simp [h])]
      simp [h]
    · rw [List.find?_cons_of_neg _ (by simp [h])]
      simp [h, List.find?]
  refine ⟨hmain, ?_, ?_⟩
  · intro h1 h2
    rw [hmain, if_neg (by omega)]
  · intro hall
    have hf : rows.find? (fun r => decide (r.key = key ∧ now2 < r.expires_at)) = none := by
      rw [List.find?_eq_none]
      intro r hr
      simp only [decide_eq_true_eq, not_and]
      intro hk
      exact not_lt.mpr (hall r hr hk)
    unfold cacheGet
    rw [hf]
    rfl

/-- Witness for C8 at a concrete input: a `set` with TTL `-3` at time 0
is a miss when read at time 5. -/
theorem cacheSet_get_expiry_witness :
    ((-3 : Int) ≤ 0 ∧ (0 : Int) ≤ 5)
    ∧ cacheGet (cacheSet [] 0 "k" sampleResponse (-3)) 5 "k" = none :=
  ⟨⟨by decide, by decide⟩,
   (cacheSet_get_expiry [] 0 5 "k" sampleResponse (-3)).2.1 (by decide) (by decide)⟩

/-- C9: `percentile` is exactly nearest-rank estimation — for a
non-empty sample list the reported percentile is the element at index
`ceil(n * p) − 1` clamped to `[0, n−1]`, and the empty sample list
yields 0 for every percentile. -/
theorem percentile_nearest_rank (sorted : List Int) (p : ℚ) :
    percentile sorted p = nearestRank sorted p ∧ percentile [] p = 0 := by
  constructor
  · by_cases h : sorted = []
    · subst h
      rfl
    · have hl : 0 < sorted.length := List.length_pos.mpr h
      unfold percentile nearestRank
      rw [dif_neg h, if_neg (by omega)]
      have hidx : Int.toNat (max 0 (min (Int.ceil ((sorted.length : ℚ) * p) - 1)
            ((sorted.length : Int) - 1)))
          = min (Int.toNat (Int.ceil ((sorted.length : ℚ) * p) - 1)) (sorted.length - 1) := by
        omega
      have hb : min (Int.toNat (Int.ceil ((sorted.length : ℚ) * p) - 1)) (sorted.length - 1)
          < sorted.length := by
        omega
      rw [hidx, List.getD_eq_getElem _ _ hb, List.get_eq_getElem]
  · rfl

/-! ### Normalization lemmas -/

theorem sortProviders_idem (l : List ProviderName) :
    sortProviders (sortProviders l) = sortProviders l :=
  List.Sorted.insertionSort_eq (List.sorted_insertionSort provLE l)

theorem sortProviders_perm (l1 l2 : List ProviderName) (h : l1.Perm l2) :
    sortProviders l1 = sortProviders l2 :=
  List.eq_of_perm_of_sorted
    ((List.perm_insertionSort provLE l1).trans (h.trans (List.perm_insertionSort provLE l2).symm))
    (List.sorted_insertionSort provLE l1) (List.sorted_insertionSort provLE l2)

theorem filter_isSome_idem (fs : SearchFilters) :
    (fs.filter (fun kv => kv.2.isSome)).filter (fun kv => kv.2.isSome)
      = fs.filter (fun kv => kv.2.isSome) := by
  rw [List.filter_filter]
  simp

/-- C7: `normalizeQuery` is idempotent, and reversing the providers
list leaves its result unchanged. -/
theorem normalizeQuery_idem_reverse (q : SearchQuery) :
    normalizeQuery (normalizeQuery q) = normalizeQuery q
    ∧ normalizeQuery { q with providers := q.providers.reverse } = normalizeQuery q := by
  obtain ⟨qq, ps, fs, lim, ttl⟩ := q
  constructor
  · show SearchQuery.mk qq (sortProviders (sortProviders ps))
      ((fs.filter (fun kv => kv.2.isSome)).filter (fun kv => kv.2.isSome)) lim ttl
      = SearchQuery.mk qq (sortProviders ps) (fs.filter (fun kv => kv.2.isSome)) lim ttl
    rw [sortProviders_idem, filter_isSome_idem]
  · show SearchQuery.mk qq (sortProviders ps.reverse) (fs.filter (fun kv => kv.2.isSome)) lim ttl
      = SearchQuery.mk qq (sortProviders ps) (fs.filter (fun kv => kv.2.isSome)) lim ttl
    rw [sortProviders_perm ps.reverse ps (List.reverse_perm ps)]

/-- C2 (amended): `hashQuery ∘ normalizeQuery` is invariant under
reordering the providers list and under filter fields explicitly set to
`undefined` versus omitted — but not under reordering the filter keys
themselves (see the counterexample): the two queries must agree on the
defined filter entries in the same insertion order. -/
theorem hashQuery_normalize_invariant (q1 q2 : SearchQuery)
    (hq : q1.q = q2.q) (hl : q1.limit = q2.limit) (ht : q1.cacheTTL = q2.cacheTTL)
    (hp : q1.providers.Perm q2.providers)
    (hf : q1.filters.filter (fun kv => kv.2.isSome)
      = q2.filters.filter (fun kv => kv.2.isSome)) :
    hashQuery (normalizeQuery q1) = hashQuery (normalizeQuery q2) := by
  have hn : normalizeQuery q1 = normalizeQuery q2 := by
    show SearchQuery.mk q1.q (sortProviders q1.providers)
        (q1.filters.filter (fun kv => kv.2.isSome)) q1.limit q1.cacheTTL
      = SearchQuery.mk q2.q (sortProviders q2.providers)
        (q2.filters.filter (fun kv => kv.2.isSome)) q2.limit q2.cacheTTL
    rw [hq, hl, ht, hf, sortProviders_perm q1.providers q2.providers hp]
  rw [hn]

/-- Witness for C2 (amended) at concrete inputs: `qv1` and `qv2` differ
in provider order and in an explicitly-undefined `org` filter, and get
the same cache key. -/
theorem hashQuery_normalize_invariant_witness :
    (qv1.q = qv2.q ∧ qv1.limit = qv2.limit ∧ qv1.cacheTTL = qv2.cacheTTL
      ∧ qv1.providers.Perm qv2.providers
      ∧ qv1.filters.filter (fun kv => kv.2.isSome)
          = qv2.filters.filter (fun kv => kv.2.isSome))
    ∧ hashQuery (normalizeQuery qv1) = hashQuery (normalizeQuery qv2) :=
  ⟨⟨rfl, rfl, rfl, by decide, by decide⟩,
   hashQuery_normalize_invariant qv1 qv2 rfl rfl rfl (by decide) (by decide)⟩

/-- Counterexample to C2 as stated: `qo1` and `qo2` are semantically
identical queries differing only in the insertion order of the keys
inside `filters` (a permutation of the same defined entries, all other
fields equal), yet their normalized forms hash to different cache keys —
`normalizeQuery` preserves the filter key insertion order and the
`JSON.stringify` serialization is key-order-sensitive. -/
theorem hashQuery_filter_order_counterexample :
    qo1.q = qo2.q ∧ qo1.limit = qo2.limit ∧ qo1.cacheTTL = qo2.cacheTTL
    ∧ qo1.providers = qo2.providers
    ∧ qo1.filters.Perm qo2.filters
    ∧ hashQuery (normalizeQuery qo1) ≠ hashQuery (normalizeQuery qo2) := by
  refine ⟨rfl, rfl, rfl, rfl, by decide, ?_⟩
  decide

/-! ### Deduplication lemmas -/

theorem dedupGo_sublist (rs : List SearchResult) :
    ∀ seen, (dedupGo seen rs).Sublist rs := by
  induction rs with
  | nil => intro seen; exact List.Sublist.refl []
  | cons r t ih =>
    intro seen
    by_cases hs : r.url ∈ seen
    · rw [dedupGo, if_pos hs]
      exact (ih seen).trans (List.sublist_cons_self r t)
    · rw [dedupGo, if_neg hs]
      exact (ih (r.url :: seen)).cons₂ r

theorem dedupGo_filter_url (u : String) (rs : List SearchResult) :
    ∀ seen, (dedupGo seen rs).filter (fun r => decide (r.url = u))
      = if u ∈ seen then [] else (rs.filter (fun r => decide (r.url = u))).take 1 := by
  induction rs with
  | nil =>
    intro seen
    by_cases hus : u ∈ seen <;> simp [dedupGo, hus]
  | cons r t ih =>
    intro seen
    by_cases hs : r.url ∈ seen
    · rw [dedupGo, if_pos hs, ih seen]
      by_cases hus : u ∈ seen
      · simp [hus]
      · have hru : r.url ≠ u := fun h => hus (h ▸ hs)
        rw [if_neg hus, if_neg hus, List.filter_cons_of_neg (by simp [hru])]
    · rw [dedupGo, if_neg hs]
      by_cases hru : r.url = u
      · subst hru
        rw [List.filter_cons_of_pos (by simp), ih (r.url :: seen),
          if_pos (List.mem_cons_self r.url seen), if_neg hs,
          List.filter_cons_of_pos (by simp)]
        rfl
      · rw [List.filter_cons_of_neg (by simp [hru]), ih (r.url :: seen)]
        have hmem : (u ∈ r.url :: seen) ↔ u ∈ seen :=
          ⟨fun h => (List.mem_cons.mp h).resolve_left (fun h2 => hru h2.symm),
           List.mem_cons_of_mem _⟩
        simp only [hmem]
        rw [List.filter_cons_of_neg (by simp [hru])]

theorem dedupGo_urls_nodup (rs : List SearchResult) :
    ∀ seen, ((dedupGo seen rs).map (fun r => r.url)).Nodup
      ∧ ∀ r ∈ dedupGo seen rs, r.url ∉ seen := by
  induction rs with
  | nil => intro seen; exact ⟨List.nodup_nil, by simp [dedupGo]⟩
  | cons r t ih =>
    intro seen
    by_cases hs : r.url ∈ seen
    · rw [dedupGo, if_pos hs]
      exact ih seen
    · rw [dedupGo, if_neg hs]
      obtain ⟨ihn, ihm⟩ := ih (r.url :: seen)
      constructor
      · rw [List.map_cons, List.nodup_cons]
        refine ⟨?_, ihn⟩
        intro hmem
        obtain ⟨s, hsmem, hsurl⟩ := List.mem_map.mp hmem
        exact (ihm s hsmem) (hsurl ▸ List.mem_cons_self r.url seen)
      · intro s hsmem
        rcases List.mem_cons.mp hsmem with h | h
        · exact h ▸ hs
        · intro hcon
          exact (ihm s h) (List.mem_cons_of_mem _ hcon)

theorem dedupGo_of_nodup (rs : List SearchResult) :
    ∀ seen, (rs.map (fun r => r.url)).Nodup → (∀ r ∈ rs, r.url ∉ seen) →
      dedupGo seen rs = rs := by
  induction rs with
  | nil => intro seen _ _; rfl
  | cons r t ih =>
    intro seen hnd hout
    rw [dedupGo, if_neg (hout r (List.mem_cons_self r t))]
    rw [List.map_cons, List.nodup_cons] at hnd
    congr 1
    refine ih (r.url :: seen) hnd.2 ?_
    intro s hsmem
    intro hcon
    rcases List.mem_cons.mp hcon with h | h
    · exact hnd.1 (h ▸ List.mem_map_of_mem (fun r => r.url) hsmem)
    · exact hout s (List.mem_cons_of_mem _ hsmem) h

theorem dedupByUrl_of_nodup (rs : List SearchResult)
    (h : (rs.map (fun r => r.url)).Nodup) : dedupByUrl rs = rs :=
  dedupGo_of_nodup rs [] h (by simp)

theorem dedupByUrl_length_card (rs : List SearchResult) :
    (dedupByUrl rs).length = ((rs.map (fun r => r.url)).toFinset).card := by
  have hnd : ((dedupByUrl rs).map (fun r => r.url)).Nodup :=
    (dedupGo_urls_nodup rs []).1
  have hset : ((dedupByUrl rs).map (fun r => r.url)).toFinset
      = (rs.map (fun r => r.url)).toFinset := by
    ext u
    simp only [List.mem_toFinset, List.mem_map]
    constructor
    · rintro ⟨s, hsmem, rfl⟩
      exact ⟨s, List.Sublist.mem hsmem (dedupGo_sublist rs []), rfl⟩
    · rintro ⟨s, hsmem, rfl⟩
      have hfil := dedupGo_filter_url s.url rs []
      rw [if_neg (List.not_mem_nil s.url)] at hfil
      have hne : rs.filter (fun r => decide (r.url = s.url)) ≠ [] := by
        intro hcon
        have := List.filter_eq_nil_iff.mp hcon s hsmem
        simp at this
      obtain ⟨a, ta, hta⟩ := List.exists_cons_of_ne_nil hne
      have hmem1 : a ∈ (dedupByUrl rs).filter (fun r => decide (r.url = s.url)) := by
        rw [dedupByUrl, hfil, hta]
        simp
      have hmem2 := List.mem_of_mem_filter hmem1
      have hurl : a.url = s.url := by
        have := List.of_mem_filter hmem1
        simpa using this
      exact ⟨a, hmem2, hurl⟩
  calc (dedupByUrl rs).length
      = ((dedupByUrl rs).map (fun r => r.url)).length := (List.length_map _ _).symm
    _ = ((dedupByUrl rs).map (fun r => r.url)).toFinset.card :=
        (List.toFinset_card_of_nodup hnd).symm
    _ = ((rs.map (fun r => r.url)).toFinset).card := by rw [hset]

/-! ### Stability of the rank sort -/

theorem orderedInsert_filter_rankClass (a : SearchResult) (x : ℝ) (l : List SearchResult) :
    (l.orderedInsert rankGE a).filter (fun b => decide (rank b = x))
      = if rank a = x then a :: l.filter (fun b => decide (rank b = x))
        else l.filter (fun b => decide (rank b = x)) := by
  induction l with
  | nil =>
    by_cases hax : rank a = x <;>
      simp [List.orderedInsert, List.filter, hax]
  | cons b t ih =>
    rw [List.orderedInsert]
    by_cases hr : rankGE a b
    · rw [if_pos hr]
      by_cases hax : rank a = x <;> by_cases hbx : rank b = x <;>
        simp [List.filter_cons, hax, hbx]
    · rw [if_neg hr]
      have hab : rank a < rank b := not_le.mp hr
      by_cases hax : rank a = x
      · have hbx : rank b ≠ x := by
          intro hbx
          rw [← hax] at hbx
          exact absurd hbx (ne_of_gt hab)
        rw [List.filter_cons_of_neg (by simp [hbx]), ih, if_pos hax,
          List.filter_cons_of_neg (by simp [hbx]), if_pos hax]
      · by_cases hbx : rank b = x
        · rw [List.filter_cons_of_pos (by simp [hbx]), ih, if_neg hax,
            List.filter_cons_of_pos (by simp [hbx]), if_neg hax]
        · rw [List.filter_cons_of_neg (by simp [hbx]), ih, if_neg hax,
            List.filter_cons_of_neg (by simp [hbx]), if_neg hax]

theorem rankSort_filter_rankClass (x : ℝ) (l : List SearchResult) :
    (rankSort l).filter (fun b => decide (rank b = x))
      = l.filter (fun b => decide (rank b = x)) := by
  induction l with
  | nil => rfl
  | cons a t ih =>
    unfold rankSort at ih ⊢
    rw [List.insertionSort, orderedInsert_filter_rankClass]
    by_cases hax : rank a = x
    · rw [if_pos hax, ih, List.filter_cons_of_pos (by simp [hax])]
    · rw [if_neg hax, ih, List.filter_cons_of_neg (by simp [hax])]

/-! ### The aggregation claims -/

/-- C4: `aggregate` deduplicates by `url`, keeping exactly the first
occurrence in input order: the survivors form a sublist of the input
whose urls are pairwise distinct, and for every url the surviving
entries with that url are exactly the first input entry with that url
(so every later duplicate is discarded entirely, regardless of its
provider, score or star count — no field of a later duplicate is
consulted); `aggregate` then just sorts and truncates the survivors, so
with a large enough limit its output is a permutation of them. -/
theorem aggregate_dedup_first_occurrence (rs : List SearchResult) (limit : Nat) :
    (dedupByUrl rs).Sublist rs
    ∧ ((dedupByUrl rs).map (fun r => r.url)).Nodup
    ∧ (∀ u, (dedupByUrl rs).filter (fun r => decide (r.url = u))
        = (rs.filter (fun r => decide (r.url = u))).take 1)
    ∧ aggregate rs limit = (rankSort (dedupByUrl rs)).take limit
    ∧ ((dedupByUrl rs).length ≤ limit → (aggregate rs limit).Perm (dedupByUrl rs)) := by
  refine ⟨dedupGo_sublist rs [], (dedupGo_urls_nodup rs []).1, ?_, rfl, ?_⟩
  · intro u
    have h := dedupGo_filter_url u rs []
    rw [if_neg (List.not_mem_nil u)] at h
    exact h
  · intro hlen
    have hperm : (rankSort (dedupByUrl rs)).Perm (dedupByUrl rs) :=
      List.perm_insertionSort rankGE (dedupByUrl rs)
    have htake : (rankSort (dedupByUrl rs)).take limit = rankSort (dedupByUrl rs) :=
      List.take_of_length_le (by unfold rankSort; rw [List.length_insertionSort]; exact hlen)
    show ((rankSort (dedupByUrl rs)).take limit).Perm (dedupByUrl rs)
    rw [htake]
    exact hperm

/-- Witness for C4 at a concrete input: two results with the same url
from different providers and different scores and stars; only the first
survives. -/
theorem aggregate_dedup_first_occurrence_witness :
    (dedupByUrl [rDup1, rDup2]).length ≤ 5
    ∧ (aggregate [rDup1, rDup2] 5).Perm (dedupByUrl [rDup1, rDup2]) :=
  ⟨by decide, (aggregate_dedup_first_occurrence [rDup1, rDup2] 5).2.2.2.2 (by decide)⟩

/-- C6: for a positive limit `k`, `aggregate rs k` returns exactly
`min k (number of distinct urls in rs)` entries, and those entries are a
prefix of the rank-sorted deduplicated list (the highest-ranked ones). -/
theorem aggregate_limit_truncation (rs : List SearchResult) (k : Nat) (hk : 0 < k) :
    (aggregate rs k).length = min k (((rs.map (fun r => r.url)).toFinset).card)
    ∧ aggregate rs k = (rankSort (dedupByUrl rs)).take k := by
  refine ⟨?_, rfl⟩
  show ((rankSort (dedupByUrl rs)).take k).length = _
  unfold rankSort
  rw [List.length_take, List.length_insertionSort, dedupByUrl_length_card]

/-- Witness for C6 at a concrete input: limit 1 on two results sharing
one url gives `min 1 1 = 1` entry. -/
theorem aggregate_limit_truncation_witness :
    0 < 1
    ∧ ((aggregate [rDup1, rDup2] 1).length
        = min 1 ((([rDup1, rDup2].map (fun r => r.url)).toFinset).card)
      ∧ aggregate [rDup1, rDup2] 1 = (rankSort (dedupByUrl [rDup1, rDup2])).take 1) :=
  ⟨by decide, aggregate_limit_truncation [rDup1, rDup2] 1 (by decide)⟩

/-- C5: `aggregate` output is sorted descending by the rank score
`relevanceScore * ln(starCount + 1)`; equal-rank results keep their
post-dedup input order (the stable sort leaves each rank class exactly
as it appears in the deduplicated input, and the output is a prefix of
that stable sort); and concretely result B (score 0.5, stars 10000)
ranks above result A (score 0.9, stars 10) because
`0.5 * ln(10001) > 0.9 * ln(11)`. -/
theorem aggregate_rank_order_stable (rs : List SearchResult) (limit : Nat) (x : ℝ) :
    List.Sorted rankGE (aggregate rs limit)
    ∧ (rankSort (dedupByUrl rs)).filter (fun b => decide (rank b = x))
        = (dedupByUrl rs).filter (fun b => decide (rank b = x))
    ∧ aggregate rs limit = (rankSort (dedupByUrl rs)).take limit
    ∧ ((9/10 : ℝ) * Real.log 11 < (1/2 : ℝ) * Real.log 10001
        ∧ aggregate [resultA, resultB] 2 = [resultB, resultA]) := by
  have hgt : (9/10 : ℝ) * Real.log 11 < (1/2 : ℝ) * Real.log 10001 := by
    have h1 : (0 : ℝ) < Real.log 11 := Real.log_pos (by norm_num)
    have h2 : Real.log 121 < Real.log 10001 := Real.log_lt_log (by norm_num) (by norm_num)
    have h3 : Real.log 121 = Real.log 11 + Real.log 11 := by
      rw [show (121 : ℝ) = 11 * 11 by norm_num, Real.log_mul (by norm_num) (by norm_num)]
    nlinarith
  have hAB : rank resultA < rank resultB := by
    show ((9/10 : ℚ) : ℝ) * Real.log (((10 : ℕ) : ℝ) + 1)
      < ((1/2 : ℚ) : ℝ) * Real.log (((10000 : ℕ) : ℝ) + 1)
    push_cast
    norm_num
    exact hgt
  refine ⟨?_, rankSort_filter_rankClass x (dedupByUrl rs), rfl, hgt, ?_⟩
  · have hsorted : List.Sorted rankGE (rankSort (dedupByUrl rs)) :=
      List.sorted_insertionSort rankGE (dedupByUrl rs)
    exact hsorted.sublist (List.take_sublist limit _)
  · show (rankSort (dedupByUrl [resultA, resultB])).take 2 = [resultB, resultA]
    have hd : dedupByUrl [resultA, resultB] = [resultA, resultB] := by
      rw [dedupByUrl, dedupGo, if_neg (List.not_mem_nil _), dedupGo,
        if_neg (by decide), dedupGo]
    rw [hd]
    unfold rankSort
    rw [List.insertionSort, List.insertionSort, List.insertionSort, List.orderedInsert,
      List.orderedInsert, if_neg (show ¬ rankGE resultA resultB from not_le.mpr hAB),
      List.orderedInsert]
    rfl

/-! ### Engine path lemmas -/

theorem cacheGet_singleton_fresh (k : String) (v : SearchResponse) (ca exp now : Int)
    (h : now < exp) : cacheGet [⟨k, v, ca, exp⟩] now k = some v := by
  unfold cacheGet
  rw [List.find?_cons_of_pos _ (by simp [h])]
  rfl

theorem search_miss (e : SearchEngine) (query : SearchQuery) (w0 : World)
    (h : w0.cacheRows = []) :
    (e.search query w0).1.cached = false
    ∧ (e.search query w0).1.search_elapsed_ms = none
    ∧ (e.search query w0).1.query = normalizeQuery query
    ∧ ∃ ca : Int,
        (e.search query w0).2.cacheRows =
          [⟨hashQuery (normalizeQuery query), (e.search query w0).1, ca,
            ca + ((query.cacheTTL.getD e.defaultTTL : Nat) : Int)⟩] := by
  have hw2 : ((w0.tick).2.tick).2.cacheRows = [] := by
    rw [tick_cacheRows, tick_cacheRows, h]
  simp only [SearchEngine.search, hw2, cacheGet_nil]
  refine ⟨trivial, trivial, trivial, ?_⟩
  rw [tick_cacheRows, tick_cacheRows, collectLoop_cacheRows]
  exact ⟨_, rfl⟩

theorem search_hit_first_provider (e : SearchEngine) (q : SearchQuery)
    (t0 tg tm t1 : Int) (rest : List Int) (rows : List CacheRow)
    (m : List MetricRow) (i : List ProviderName) (c : SearchResponse) (fp : ProviderName)
    (hfp : (normalizeQuery q).providers.head? = some fp)
    (hc : cacheGet rows (tg / 1000) (hashQuery (normalizeQuery q)) = some c) :
    e.search q ⟨t0 :: tg :: tm :: t1 :: rest, rows, m, i⟩
      = (⟨c.query, c.results, c.total, true, t1 - t0, c.errors, some c.elapsed_ms⟩,
         ⟨rest, rows,
          m ++ [⟨tm / 1000, fp, some (normalizeQuery q).q, true,
            some c.results.length, some 0, none⟩], i⟩) := by
  simp only [SearchEngine.search, World.tick, hc, hfp, metricsRecord]

theorem search_hit_no_provider (e : SearchEngine) (q : SearchQuery)
    (t0 tg t1 : Int) (rest : List Int) (rows : List CacheRow)
    (m : List MetricRow) (i : List ProviderName) (c : SearchResponse)
    (hfp : (normalizeQuery q).providers.head? = none)
    (hc : cacheGet rows (tg / 1000) (hashQuery (normalizeQuery q)) = some c) :
    e.search q ⟨t0 :: tg :: t1 :: rest, rows, m, i⟩
      = (⟨c.query, c.results, c.total, true, t1 - t0, c.errors, some c.elapsed_ms⟩,
         ⟨rest, rows, m, i⟩) := by
  simp only [SearchEngine.search, World.tick, hc, hfp]

/-- C10: on a cache hit for a query whose normalized providers list is
empty, `search` writes no cache-hit metrics record at all (the write is
guarded on a first provider existing), invokes no provider adapter, and
still returns the cached response with `cached := true` — it does not
fail on the missing first provider. -/
theorem search_hit_empty_providers (e : SearchEngine) (q : SearchQuery)
    (t0 tg t1 : Int) (rest : List Int) (rows : List CacheRow)
    (m : List MetricRow) (i : List ProviderName) (c : SearchResponse)
    (hnp : (normalizeQuery q).providers = [])
    (hc : cacheGet rows (tg / 1000) (hashQuery (normalizeQuery q)) = some c) :
    (e.search q ⟨t0 :: tg :: t1 :: rest, rows, m, i⟩).1
      = ⟨c.query, c.results, c.total, true, t1 - t0, c.errors, some c.elapsed_ms⟩
    ∧ (e.search q ⟨t0 :: tg :: t1 :: rest, rows, m, i⟩).2.metricsRows = m
    ∧ (e.search q ⟨t0 :: tg :: t1 :: rest, rows, m, i⟩).2.invoked = i := by
  have hfp : (normalizeQuery q).providers.head? = none := by rw [hnp]; rfl
  rw [search_hit_no_provider e q t0 tg t1 rest rows m i c hfp hc]
  exact ⟨rfl, rfl, rfl⟩

/-- Witness for C10 at a concrete input: a query with an empty
providers list served from a one-row cache; no metrics row is written
and the cached response is returned. -/
theorem search_hit_empty_providers_witness :
    ((normalizeQuery qNone).providers = []
      ∧ cacheGet rowsHit (6 / 1000) (hashQuery (normalizeQuery qNone)) = some sampleResponse)
    ∧ ((engineOne.search qNone ⟨5 :: 6 :: 7 :: [], rowsHit, [], []⟩).1
        = ⟨sampleResponse.query, sampleResponse.results, sampleResponse.total, true, 7 - 5,
           sampleResponse.errors, some sampleResponse.elapsed_ms⟩
      ∧ (engineOne.search qNone ⟨5 :: 6 :: 7 :: [], rowsHit, [], []⟩).2.metricsRows = []
      ∧ (engineOne.search qNone ⟨5 :: 6 :: 7 :: [], rowsHit, [], []⟩).2.invoked = []) :=
  ⟨⟨rfl, cacheGet_singleton_fresh (hashQuery (normalizeQuery qNone)) sampleResponse 0 100
      (6 / 1000) (by decide)⟩,
   search_hit_empty_providers engineOne qNone 5 6 7 [] rowsHit [] [] sampleResponse rfl
     (cacheGet_singleton_fresh (hashQuery (normalizeQuery qNone)) sampleResponse 0 100
       (6 / 1000) (by decide))⟩

/-- C3: cache round-trip — a first `search` on an empty cache misses
(`cached = false` and the response is stored); a second `search` of the
same query whose cache lookup happens before the stored row expires
returns the first call's results, errors and total with `cached = true`,
sets `elapsed_ms` to the second call's own wall time `t1 - t0`, sets
`search_elapsed_ms` to the `elapsed_ms` stored in the original cached
response, and invokes zero provider adapters (the `invoked` trace does
not grow). -/
theorem search_cache_roundtrip (e : SearchEngine) (q : SearchQuery) (ts0 : List Int)
    (t0 tg tm t1 : Int) (fp : ProviderName) (w2 : World)
    (hfp : (normalizeQuery q).providers.head? = some fp)
    (hw2 : w2 = ⟨[t0, tg, tm, t1], (e.search q ⟨ts0, [], [], []⟩).2.cacheRows,
      (e.search q ⟨ts0, [], [], []⟩).2.metricsRows, (e.search q ⟨ts0, [], [], []⟩).2.invoked⟩)
    (hfresh : ∀ row ∈ (e.search q ⟨ts0, [], [], []⟩).2.cacheRows, tg / 1000 < row.expires_at) :
    (e.search q ⟨ts0, [], [], []⟩).1.cached = false
    ∧ (e.search q w2).1.cached = true
    ∧ (e.search q w2).1.results = (e.search q ⟨ts0, [], [], []⟩).1.results
    ∧ (e.search q w2).1.errors = (e.search q ⟨ts0, [], [], []⟩).1.errors
    ∧ (e.search q w2).1.total = (e.search q ⟨ts0, [], [], []⟩).1.total
    ∧ (e.search q w2).1.elapsed_ms = t1 - t0
    ∧ (e.search q w2).1.search_elapsed_ms = some (e.search q ⟨ts0, [], [], []⟩).1.elapsed_ms
    ∧ (e.search q w2).2.invoked = w2.invoked := by
  obtain ⟨hcached, hse, hqq, ca, hrows⟩ := search_miss e q ⟨ts0, [], [], []⟩ rfl
  have hmem : (⟨hashQuery (normalizeQuery q), (e.search q ⟨ts0, [], [], []⟩).1, ca,
      ca + ((q.cacheTTL.getD e.defaultTTL : Nat) : Int)⟩ : CacheRow)
      ∈ (e.search q ⟨ts0, [], [], []⟩).2.cacheRows := by
    rw [hrows]
    exact List.mem_singleton_self _
  have hexp := hfresh _ hmem
  have hc : cacheGet (e.search q ⟨ts0, [], [], []⟩).2.cacheRows (tg / 1000)
      (hashQuery (normalizeQuery q)) = some ((e.search q ⟨ts0, [], [], []⟩).1) := by
    rw [hrows]
    exact cacheGet_singleton_fresh _ _ _ _ _ hexp
  subst hw2
  rw [search_hit_first_provider e q t0 tg tm t1 [] _ _ _ _ fp hfp hc]
  exact ⟨hcached, rfl, rfl, rfl, rfl, rfl, rfl, rfl⟩

/-- Witness for C3 at a concrete input: one configured provider, an
empty initial cache, and a second call with a fresh clock whose lookup
time 12 ms (epoch second 0) is before the stored expiry. -/
theorem search_cache_roundtrip_witness :
    ((normalizeQuery qOne).providers.head? = some ProviderName.github
      ∧ (∀ row ∈ (engineOne.search qOne ⟨[], [], [], []⟩).2.cacheRows,
          (12 : Int) / 1000 < row.expires_at))
    ∧ ((engineOne.search qOne ⟨[], [], [], []⟩).1.cached = false
      ∧ (engineOne.search qOne roundWorld).1.cached = true
      ∧ (engineOne.search qOne roundWorld).1.results
          = (engineOne.search qOne ⟨[], [], [], []⟩).1.results
      ∧ (engineOne.search qOne roundWorld).1.errors
          = (engineOne.search qOne ⟨[], [], [], []⟩).1.errors
      ∧ (engineOne.search qOne roundWorld).1.total
          = (engineOne.search qOne ⟨[], [], [], []⟩).1.total
      ∧ (engineOne.search qOne roundWorld).1.elapsed_ms = 14 - 11
      ∧ (engineOne.search qOne roundWorld).1.search_elapsed_ms
          = some (engineOne.search qOne ⟨[], [], [], []⟩).1.elapsed_ms
      ∧ (engineOne.search qOne roundWorld).2.invoked = roundWorld.invoked) :=
  ⟨⟨by decide, by decide⟩,
   search_cache_roundtrip engineOne qOne [] 11 12 13 14 ProviderName.github roundWorld
     (by decide) rfl (by decide)⟩

/-- C1: partial failure isolation — `search` is a total function (it
never rejects on a provider-level failure): on a cache miss, when the
github provider fulfils with `rs` and the sourcegraph provider rejects
with `reason`, the response carries `cached = false`, an errors list
containing exactly the one classified `ProviderFailure` (the rejection
itself when it carries the `provider`/`message`/`code` fields, so its
provider-supplied code is preserved; otherwise a synthesized failure
with code UNKNOWN for the failing provider), and the results are the
aggregation of the succeeding provider's `rs` alone — in particular all
`n` of them (before truncation) when their urls are distinct and `n`
fits the limit. -/
theorem search_partial_failure (e : SearchEngine) (query : SearchQuery) (ts : List Int)
    (P1 P2 : Provider) (rs : List SearchResult) (reason : RejectionReason)
    (hg : e.providers ProviderName.github = some P1)
    (hs : e.providers ProviderName.sourcegraph = some P2)
    (hp : (normalizeQuery query).providers = [ProviderName.github, ProviderName.sourcegraph])
    (hn2 : P2.name = ProviderName.sourcegraph)
    (hok : P1.search (normalizeQuery query) = Except.ok rs)
    (herr : P2.search (normalizeQuery query) = Except.error reason) :
    (e.search query ⟨ts, [], [], []⟩).1.cached = false
    ∧ (e.search query ⟨ts, [], [], []⟩).1.errors
        = [classifyReason ProviderName.sourcegraph reason]
    ∧ (∀ pe, reason = RejectionReason.providerError pe →
        (e.search query ⟨ts, [], [], []⟩).1.errors = [pe])
    ∧ (∀ s, reason = RejectionReason.other s →
        (e.search query ⟨ts, [], [], []⟩).1.errors
          = [{ provider := ProviderName.sourcegraph, message := s, code := ErrorCode.UNKNOWN }])
    ∧ (e.search query ⟨ts, [], [], []⟩).1.results
        = aggregate rs (normalizeQuery query).limit
    ∧ ((rs.map (fun r => r.url)).Nodup → rs.length ≤ (normalizeQuery query).limit →
        (e.search query ⟨ts, [], [], []⟩).1.results.Perm rs) := by
  have hw2 : (((⟨ts, [], [], []⟩ : World).tick).2.tick).2.cacheRows = [] := by
    rw [tick_cacheRows, tick_cacheRows]
  simp only [SearchEngine.search, hw2, cacheGet_nil]
  rw [hp]
  simp only [List.filterMap_cons, List.filterMap_nil, hg, hs, List.map_cons, List.map_nil,
    hok, herr, collectLoop, metricsRecord, List.append_nil]
  rw [hn2]
  refine ⟨by trivial, by trivial, ?_, ?_, by trivial, ?_⟩
  · intro pe hpe
    subst hpe
    rfl
  · intro s hse
    subst hse
    rfl
  · intro hnd hlen
    have hd : dedupByUrl rs = rs := dedupByUrl_of_nodup rs hnd
    show (aggregate rs (normalizeQuery query).limit).Perm rs
    unfold aggregate
    rw [hd, List.take_of_length_le
      (by unfold rankSort; rw [List.length_insertionSort]; exact hlen)]
    exact List.perm_insertionSort rankGE rs

/-- Witness for C1 at a concrete input: github fulfils with one result,
sourcegraph rejects with a TIMEOUT `ProviderError`; the response keeps
the result, reports exactly that failure with its code preserved, and
fulfils. -/
theorem search_partial_failure_witness :
    (engineBoth.providers ProviderName.github = some pOkGithub
      ∧ engineBoth.providers ProviderName.sourcegraph = some pBadSourcegraph
      ∧ (normalizeQuery qBoth).providers = [ProviderName.github, ProviderName.sourcegraph]
      ∧ pBadSourcegraph.name = ProviderName.sourcegraph
      ∧ pOkGithub.search (normalizeQuery qBoth) = Except.ok [rSolo]
      ∧ pBadSourcegraph.search (normalizeQuery qBoth)
          = Except.error (RejectionReason.providerError ⟨.sourcegraph, "timeout", .TIMEOUT⟩))
    ∧ ((engineBoth.search qBoth ⟨[], [], [], []⟩).1.cached = false
      ∧ (engineBoth.search qBoth ⟨[], [], [], []⟩).1.errors
          = [⟨.sourcegraph, "timeout", .TIMEOUT⟩]
      ∧ (engineBoth.search qBoth ⟨[], [], [], []⟩).1.results.Perm [rSolo]) := by
  have h := search_partial_failure engineBoth qBoth [] pOkGithub pBadSourcegraph [rSolo]
    (RejectionReason.providerError ⟨.sourcegraph, "timeout", .TIMEOUT⟩)
    rfl rfl (by decide) rfl rfl rfl
  exact ⟨⟨rfl, rfl, by decide, rfl, rfl, rfl⟩,
    h.1, h.2.2.1 ⟨.sourcegraph, "timeout", .TIMEOUT⟩ rfl,
    h.2.2.2.2.2 (by decide) (by decide)⟩
